import Mathlib

/-!
Verification of the Blockchain-HIT ledger core against its specification.

This file is a shallow embedding, in Lean 4, of the Python sources of the
repository: the transaction model (`core/tx.py`), the block and header model
(`core/block.py`), the ledger state machine (`core/chain.py`), the Merkle
commitment (`crypto/merkle.py`), the Bloom filter (`crypto/bloom.py`), and the
light-client verification path (`node/full_node.py`, `node/light_wallet.py`).

Modelling conventions:
* Python `Dict[str, int]` balance maps become association lists with
  first-match lookup and first-match update, which coincides with dict
  semantics (a dict never holds a duplicate key, and insertion order is
  preserved with new keys appended at the end).
* Python `int` becomes `Int` (unbounded, signed); list indices become `Nat`.
* SHA-256 is an external cryptographic primitive; every definition that hashes
  is parametrised over an abstract digest function `sha : String → String`
  (hex digest of the UTF-8 bytes of the argument, as `hashlib.sha256(...)
  .hexdigest()` in the source).  The Bloom filter consumes the digest as an
  integer, abstracted as `shaNat : String → Nat`.
* The elliptic-curve signing capability and the external detached-signature
  store are out-of-scope collaborators in the spec; they are abstracted as
  stated at their definitions.
-/

namespace BlockchainHIT

/-! ## Balance maps (`Dict[str, int]` in `core/chain.py`) -/

/-- An account-balance map, modelling Python `Dict[str, int]`. -/
abbrev Balances := List (String × Int)

/-- `balances.get(k, 0)`: first-match lookup with default `0`. -/
def getBal : Balances → String → Int
  | [], _ => 0
  | (a, v) :: rest, k => if a = k then v else getBal rest k

/-- `balances[k] = v`: replace the (unique) binding of `k`, or append a new
binding at the end, exactly as dict item assignment does. -/
def setBal : Balances → String → Int → Balances
  | [], k, v => [(k, v)]
  | (a, w) :: rest, k, v =>
      if a = k then (k, v) :: rest else (a, w) :: setBal rest k v

/-- The total supply held in a balance map: the sum of all values. -/
def sumBal (m : Balances) : Int := (m.map Prod.snd).sum

theorem sumBal_nil : sumBal [] = 0 := rfl

theorem sumBal_cons (a : String) (v : Int) (m : Balances) :
    sumBal ((a, v) :: m) = v + sumBal m := by
  simp [sumBal]

/-- Updating one key changes the total by the difference between the new and
the old value of that key. -/
theorem sumBal_setBal (m : Balances) (k : String) (v : Int) :
    sumBal (setBal m k v) = sumBal m + v - getBal m k := by
  induction m with
  | nil => simp [setBal, getBal, sumBal]
  | cons p rest ih =>
      obtain ⟨a, w⟩ := p
      by_cases h : a = k
      · simp [setBal, getBal, h, sumBal_cons]
        ring
      · simp [setBal, getBal, h, sumBal_cons, ih]
        ring

/-! ## Transactions (`core/tx.py`) -/

/-- A transaction (`class Tx`).  `sender_pubkey` and `signature` are the two
optional witness fields; `tx_id` is the stored identity. -/
structure Tx where
  sender : String
  recipient : String
  amount : Int
  nonce : Int
  base_fee : Int
  tip : Int
  sender_pubkey : Option String
  signature : Option String
  tx_id : String
deriving DecidableEq, Repr

/-- The canonical JSON of the six identity fields of a transaction:
`json.dumps(tx_dict, sort_keys=True, separators=(',', ':'))` with
`tx_dict = to_dict(include_signature=False, include_pubkey=False)`.
The keys appear in sorted order:
amount, base_fee, nonce, recipient, sender, tip. -/
def canonicalTxJson (sender recipient : String) (amount nonce base_fee tip : Int) :
    String :=
  "\x7b\"amount\":" ++ toString amount ++
  ",\"base_fee\":" ++ toString base_fee ++
  ",\"nonce\":" ++ toString nonce ++
  ",\"recipient\":\"" ++ recipient ++
  "\",\"sender\":\"" ++ sender ++
  "\",\"tip\":" ++ toString tip ++ "\x7d"

/-- `Tx.get_preimage`: the canonical serialization that is hashed and signed. -/
def txPreimage (tx : Tx) : String :=
  canonicalTxJson tx.sender tx.recipient tx.amount tx.nonce tx.base_fee tx.tip

/-- `Tx._calculate_tx_id`: SHA-256 of the canonical JSON of the six identity
fields (signature and public key excluded). -/
def calculateTxId (sha : String → String) (sender recipient : String)
    (amount nonce base_fee tip : Int) : String :=
  sha (canonicalTxJson sender recipient amount nonce base_fee tip)

/-- `Tx.__init__`: builds a transaction; when `tx_id` is not supplied it is
computed by `_calculate_tx_id`. -/
def mkTx (sha : String → String) (sender recipient : String)
    (amount nonce base_fee tip : Int) (sender_pubkey signature : Option String)
    (tx_id : Option String) : Tx :=
  { sender := sender, recipient := recipient, amount := amount, nonce := nonce,
    base_fee := base_fee, tip := tip, sender_pubkey := sender_pubkey,
    signature := signature,
    tx_id := tx_id.getD (calculateTxId sha sender recipient amount nonce base_fee tip) }

/-- The dictionary emitted by `Tx.to_dict` and consumed by `Tx.from_dict`.
`to_dict` never emits the `tx_id` key, so `from_dict` reads it as absent and
recomputes it; the field is kept optional here because `from_dict` accepts
dictionaries from other producers as well. -/
structure TxDict where
  sender : String
  recipient : String
  amount : Int
  nonce : Int
  base_fee : Int
  tip : Int
  sender_pubkey : Option String
  signature : Option String
  tx_id : Option String
deriving DecidableEq, Repr

/-- `Tx.to_dict(include_signature, include_pubkey)`: optional fields present
only when the flag is set and the field is not `None`; `tx_id` never emitted. -/
def Tx.toDict (tx : Tx) (include_signature include_pubkey : Bool) : TxDict :=
  { sender := tx.sender, recipient := tx.recipient, amount := tx.amount,
    nonce := tx.nonce, base_fee := tx.base_fee, tip := tx.tip,
    sender_pubkey := if include_pubkey then tx.sender_pubkey else none,
    signature := if include_signature then tx.signature else none,
    tx_id := none }

/-- `Tx.from_dict`: rebuilds a transaction through the constructor; a missing
`tx_id` is recomputed from the six identity fields. -/
def Tx.fromDict (sha : String → String) (d : TxDict) : Tx :=
  mkTx sha d.sender d.recipient d.amount d.nonce d.base_fee d.tip
    d.sender_pubkey d.signature d.tx_id

/-- Modelled from the spec: the external detached-signature store
(`crypto/segwit.py`'s module-level `store_signature` / `get_signature`, whose
implementation is not part of the extracted sources).  The spec describes it as
an opaque key-value capability `store(tx_id, signature)` /
`get(tx_id) → signature | absent`. -/
abbrev SigStore := String → Option String

/-- `segwit.store_signature(tx_id, sig)` on the key-value capability. -/
def storeSignature (store : SigStore) (txid sig : String) : SigStore :=
  fun k => if k = txid then some sig else store k

/-- Modelled from the spec: the opaque signing capability.  `PrivKey` is the
abstract private-key type, `serializePub` is `keys.serialize_public_key ∘
public_key`, `signData` is `signatures.sign_data`, and `verifyData pk sig
preimage` is `signatures.verify_signature` — all external collaborators whose
implementations are explicitly out of scope for the core. -/
structure SigCapability (PrivKey : Type) where
  serializePub : PrivKey → String
  signData : PrivKey → String → String
  verifyData : String → String → String → Bool

/-- `Tx.sign(private_key, detach)`: sets the public key and the signature; in
detached mode the signature goes to the external store and the in-memory field
is cleared.  Returns the updated transaction and the updated store. -/
def Tx.sign {PrivKey : Type} (cap : SigCapability PrivKey) (tx : Tx)
    (private_key : PrivKey) (detach : Bool) (store : SigStore) : Tx × SigStore :=
  let pub := cap.serializePub private_key
  let sig := cap.signData private_key (txPreimage tx)
  if detach then
    ({ tx with sender_pubkey := some pub, signature := none },
     storeSignature store tx.tx_id sig)
  else
    ({ tx with sender_pubkey := some pub, signature := some sig }, store)

/-- `Tx.verify_signature`: false without a public key; otherwise use the
attached signature, falling back to the external store, and check it against
the canonical preimage. -/
def Tx.verifySignature {PrivKey : Type} (cap : SigCapability PrivKey) (tx : Tx)
    (store : SigStore) : Bool :=
  match tx.sender_pubkey with
  | none => false
  | some pk =>
      match tx.signature.or (store tx.tx_id) with
      | none => false
      | some sig => cap.verifyData pk sig (txPreimage tx)

/-! ## Merkle commitment (`crypto/merkle.py`)

All hashing goes through the abstract `sha`.  `_hash_tx_id tx_id` is
`sha tx_id`; an interior node over children `a` and `b` is `sha (a ++ b)`. -/

/-- One level of `_build_merkle_tree` / the level rebuild inside
`_build_proof`: hash adjacent pairs, duplicating an unpaired last node as its
own partner (`range(0, len(nodes), 2)` with the odd-tail branch). -/
def pairUp (sha : String → String) : List String → List String
  | [] => []
  | [a] => [sha (a ++ a)]
  | a :: b :: rest => sha (a ++ b) :: pairUp sha rest

theorem pairUp_length (sha : String → String) :
    ∀ l : List String, (pairUp sha l).length = (l.length + 1) / 2
  | [] => by simp [pairUp]
  | [_] => by simp [pairUp]
  | _ :: _ :: rest => by
      simp [pairUp, pairUp_length sha rest]
      omega

/-- `_build_merkle_tree`: fold levels until a single node remains.  The source
never calls this on an empty list (`merkle_root` guards that case); the `[]`
branch is a totality filler. -/
def buildMerkleTree (sha : String → String) : List String → String
  | [] => ""
  | [a] => a
  | a :: b :: rest => buildMerkleTree sha (pairUp sha (a :: b :: rest))
termination_by l => l.length
decreasing_by
  simp [pairUp_length]
  omega

/-- `merkle_root`: hash of the empty input for an empty transaction list,
otherwise the tree over the `_hash_tx_id` leaves. -/
def merkleRoot (sha : String → String) (txs : List Tx) : String :=
  if txs = [] then sha ""
  else buildMerkleTree sha (txs.map (fun tx => sha tx.tx_id))

/-- Python's `list.index` wrapped in `try/except`: the index of the first
occurrence, or `none`. -/
def indexOfFirst (target : String) : List String → Option Nat
  | [] => none
  | x :: rest =>
      if x = target then some 0 else (indexOfFirst target rest).map (· + 1)

/-- `_build_proof`: walk the levels from the leaves up, recording the sibling
(with its side) at each level; the recorded side is `"left"` when the current
node is the right member of its pair.  The out-of-range sibling of an unpaired
last node is replaced by the node itself. -/
def buildProof (sha : String → String) (level : List String)
    (current_index : Nat) : List (String × String) :=
  if _h : level.length ≤ 1 then []
  else
    let is_right_node := current_index % 2 = 1
    let pair_start_idx := if is_right_node then current_index - 1 else current_index
    let sibling_pre := if is_right_node then current_index - 1 else current_index + 1
    let sibling_index := if level.length ≤ sibling_pre then current_index else sibling_pre
    let side := if is_right_node then "left" else "right"
    (side, level.getD sibling_index "") ::
      buildProof sha (pairUp sha level) (pair_start_idx / 2)
termination_by level.length
decreasing_by
  simp [pairUp_length]
  omega

/-- `merkle_proof`: empty when the hashed target is not among the leaves,
otherwise the proof for the first matching leaf. -/
def merkleProof (sha : String → String) (txs : List Tx) (target_tx_id : String) :
    List (String × String) :=
  let leaves := txs.map (fun tx => sha tx.tx_id)
  let target_hash := sha target_tx_id
  match indexOfFirst target_hash leaves with
  | none => []
  | some target_index => buildProof sha leaves target_index

/-- The folding loop of `verify_proof`: fold each `(side, sibling)` step into
the running hash, concatenating the sibling on its recorded side. -/
def foldSteps (sha : String → String) (proof : List (String × String))
    (start : String) : String :=
  proof.foldl
    (fun current sp =>
      if sp.1 = "left" then sha (sp.2 ++ current) else sha (current ++ sp.2))
    start

/-- `verify_proof`: hash the target, special-case an empty proof (single-leaf
block) by direct comparison, otherwise fold the proof and compare to the root. -/
def verifyProof (sha : String → String) (root target_tx_id : String)
    (proof : List (String × String)) : Bool :=
  let current := sha target_tx_id
  if proof = [] ∧ current.length = root.length then current = root
  else foldSteps sha proof current = root

/-- On an empty proof both branches of `verify_proof` reduce to comparing the
leaf hash to the root, so the verifier is the fold-and-compare on every input. -/
theorem verifyProof_eq_fold (sha : String → String) (root target : String)
    (proof : List (String × String)) :
    verifyProof sha root target proof = (foldSteps sha proof (sha target) = root) := by
  by_cases h : proof = [] ∧ (sha target).length = root.length
  · simp [verifyProof, h, foldSteps, h.1]
  · simp [verifyProof, h]

/-! ### Merkle correctness lemmas -/

/-- Entry `j` of a folded level combines entries `2j` and `2j+1` of the level
below, the last entry being its own partner on an odd level. -/
theorem pairUp_getD (sha : String → String) :
    ∀ (l : List String) (j : Nat),
      (pairUp sha l).getD j "" =
        if 2 * j + 1 < l.length then
          sha (l.getD (2 * j) "" ++ l.getD (2 * j + 1) "")
        else if 2 * j < l.length then
          sha (l.getD (2 * j) "" ++ l.getD (2 * j) "")
        else ""
  | [], j => by simp [pairUp]
  | [a], j => by
      cases j with
      | zero => simp [pairUp]
      | succ j => simp [pairUp]
  | a :: b :: rest, j => by
      cases j with
      | zero => simp [pairUp]
      | succ j =>
          have ih := pairUp_getD sha rest j
          have h1 : 2 * (j + 1) = 2 * j + 1 + 1 := by omega
          have h2 : 2 * (j + 1) + 1 = (2 * j + 1) + 1 + 1 := by omega
          simp only [pairUp, List.getD_cons_succ, h1, h2, List.length_cons, ih]
          exact if_congr (by omega) rfl (if_congr (by omega) rfl rfl)

/-- A level of length at least two folds to the same root as the level itself. -/
theorem buildMerkleTree_pairUp (sha : String → String) (l : List String)
    (h : 2 ≤ l.length) :
    buildMerkleTree sha l = buildMerkleTree sha (pairUp sha l) := by
  match l with
  | [] => simp at h
  | [a] => simp at h
  | a :: b :: rest => rw [buildMerkleTree]

/-- Folding the proof that `_build_proof` constructs for position `idx` of a
level, starting from the entry at `idx`, reproduces the root of that level.
The fuel `n` bounds the level length for the induction. -/
theorem foldSteps_buildProof (sha : String → String) :
    ∀ (n : Nat) (level : List String) (idx : Nat), level.length ≤ n →
      idx < level.length →
      foldSteps sha (buildProof sha level idx) (level.getD idx "") =
        buildMerkleTree sha level := by
  intro n
  induction n with
  | zero => intro level idx h1 h2; omega
  | succ n ih =>
      intro level idx h1 h2
      by_cases hlen : level.length ≤ 1
      · rw [buildProof]
        simp only [hlen]
        have h3 : level.length = 1 := by omega
        obtain ⟨a, ha⟩ := List.length_eq_one.mp h3
        have h4 : idx = 0 := by omega
        subst ha h4
        simp [buildMerkleTree, foldSteps]
      · rw [buildProof]
        simp only [hlen, dite_false, reduceDIte]
        have hfold :
            foldSteps sha
              ((if idx % 2 = 1 then "left" else "right",
                level.getD
                  (if level.length ≤ (if idx % 2 = 1 then idx - 1 else idx + 1)
                   then idx else (if idx % 2 = 1 then idx - 1 else idx + 1)) "") ::
                buildProof sha (pairUp sha level)
                  ((if idx % 2 = 1 then idx - 1 else idx) / 2))
              (level.getD idx "") =
            foldSteps sha
              (buildProof sha (pairUp sha level)
                ((if idx % 2 = 1 then idx - 1 else idx) / 2))
              ((pairUp sha level).getD ((if idx % 2 = 1 then idx - 1 else idx) / 2) "") := by
          rw [pairUp_getD]
          by_cases hpar : idx % 2 = 1
          · -- right member of its pair: sibling on the left at idx - 1
            have hsib : ¬ level.length ≤ idx - 1 := by omega
            have hj : 2 * ((idx - 1) / 2) = idx - 1 := by omega
            simp only [if_pos hpar, if_neg hsib]
            rw [hj]
            have hplus : idx - 1 + 1 = idx := by omega
            rw [hplus]
            simp [foldSteps, h2]
          · -- left member of its pair: sibling on the right at idx + 1
            have hj : 2 * (idx / 2) = idx := by omega
            by_cases hlast : level.length ≤ idx + 1
            · -- unpaired last node: duplicated as its own partner
              have hlast2 : ¬ (idx + 1 < level.length) := by omega
              simp only [if_neg hpar, if_pos hlast]
              rw [hj]
              simp [foldSteps, hlast2, h2]
            · have hlt : idx + 1 < level.length := by omega
              simp only [if_neg hpar, if_neg hlast]
              rw [hj]
              simp [foldSteps, hlt]
        rw [hfold, ih]
        · exact (buildMerkleTree_pairUp sha level (by omega)).symm
        · rw [pairUp_length]; omega
        · rw [pairUp_length]
          by_cases hpar : idx % 2 = 1 <;> simp [hpar] <;> omega

/-- A found index points inside the list, at an entry equal to the target. -/
theorem indexOfFirst_spec (target : String) :
    ∀ l : List String, target ∈ l →
      ∃ i, indexOfFirst target l = some i ∧ i < l.length ∧ l.getD i "" = target
  | [], h => by simp at h
  | x :: rest, h => by
      by_cases hx : x = target
      · exact ⟨0, by simp [indexOfFirst, hx]⟩
      · have hmem : target ∈ rest := by
          rcases List.mem_cons.mp h with h1 | h1
          · exact absurd h1.symm hx
          · exact h1
        obtain ⟨i, hi, hlt, hget⟩ := indexOfFirst_spec target rest hmem
        exact ⟨i + 1, by simp [indexOfFirst, hx, hi], by simpa using hlt, by simpa using hget⟩

/-- An absent target is never found. -/
theorem indexOfFirst_eq_none (target : String) :
    ∀ l : List String, target ∉ l → indexOfFirst target l = none
  | [], _ => rfl
  | x :: rest, h => by
      have hx : ¬ x = target := fun hc => h (hc ▸ List.mem_cons_self x rest)
      have : target ∉ rest := fun hc => h (List.mem_cons_of_mem x hc)
      simp [indexOfFirst, hx, indexOfFirst_eq_none target rest this]

/-- Inclusion: the proof produced for a transaction that is in the list
verifies against the Merkle root of the list. -/
theorem merkleProof_verifies (sha : String → String) (txs : List Tx) (e : Tx)
    (he : e ∈ txs) :
    verifyProof sha (merkleRoot sha txs) e.tx_id (merkleProof sha txs e.tx_id) = true := by
  have hne : txs ≠ [] := by
    intro h
    subst h
    simp at he
  have hleaf : sha e.tx_id ∈ txs.map (fun tx => sha tx.tx_id) :=
    List.mem_map_of_mem _ he
  obtain ⟨i, hi, hlt, hget⟩ := indexOfFirst_spec _ _ hleaf
  rw [verifyProof_eq_fold]
  simp only [merkleProof, hi]
  rw [← hget]
  rw [foldSteps_buildProof sha (txs.map (fun tx => sha tx.tx_id)).length _ _ le_rfl hlt]
  simp [merkleRoot, hne]

/-- Exclusion: when the hashed target does not occur among the leaves, the
proof comes back empty. -/
theorem merkleProof_absent (sha : String → String) (txs : List Tx) (t : String)
    (hnl : sha t ∉ txs.map (fun tx => sha tx.tx_id)) :
    merkleProof sha txs t = [] := by
  simp only [merkleProof, indexOfFirst_eq_none _ _ hnl]

/-- An empty proof verifies exactly when the leaf hash equals the root. -/
theorem verifyProof_nil (sha : String → String) (root t : String)
    (hroot : sha t ≠ root) :
    verifyProof sha root t [] = false := by
  simp [verifyProof, foldSteps, hroot]

/-! ## Bloom filter (`crypto/bloom.py`)

The digest-as-integer `int(hashlib.sha256(...).hexdigest(), 16)` is abstracted
as `shaNat : String → Nat`. -/

/-- `class BloomFilter`: a fixed-size bit array with `k` seeded derivations. -/
structure BloomFilter where
  m_bits : Nat
  k : Nat
  bit_array : List Nat
deriving DecidableEq, Repr

/-- `BloomFilter.__init__(m_bits, k)`: all bits clear. -/
def BloomFilter.init (m_bits k : Nat) : BloomFilter :=
  { m_bits := m_bits, k := k, bit_array := List.replicate m_bits 0 }

/-- `BloomFilter._hash(item, seed)`: digest of `str(seed) + item` as an
integer, reduced modulo the array size. -/
def bloomHash (shaNat : String → Nat) (m_bits : Nat) (item : String)
    (seed : Nat) : Nat :=
  shaNat (toString seed ++ item) % m_bits

/-- `BloomFilter.add(item)`: set the bit at each of the `k` derived positions. -/
def BloomFilter.add (shaNat : String → Nat) (bf : BloomFilter) (item : String) :
    BloomFilter :=
  { bf with
    bit_array :=
      (List.range bf.k).foldl
        (fun arr i => arr.set (bloomHash shaNat bf.m_bits item i) 1)
        bf.bit_array }

/-- `BloomFilter.might_contain(item)`: true only if every derived position is
set (the loop returns false at the first clear bit). -/
def BloomFilter.mightContain (shaNat : String → Nat) (bf : BloomFilter)
    (item : String) : Bool :=
  (List.range bf.k).all
    (fun i => bf.bit_array.getD (bloomHash shaNat bf.m_bits item i) 0 ≠ 0)

/-- A sequence of `add` calls, as a fold. -/
def bloomAddAll (shaNat : String → Nat) (bf : BloomFilter)
    (items : List String) : BloomFilter :=
  items.foldl (fun b item => b.add shaNat item) bf

/-! ### Bloom soundness lemmas -/

/-- Setting a sequence of bit positions, one `bit_array[index] = 1` at a time. -/
def setBits (ps : List Nat) (arr : List Nat) : List Nat :=
  ps.foldl (fun a p => a.set p 1) arr

theorem getD_set (l : List Nat) (i j v : Nat) :
    (l.set i v).getD j 0 = if i = j ∧ i < l.length then v else l.getD j 0 := by
  induction l generalizing i j with
  | nil => simp
  | cons a rest ih =>
      cases i with
      | zero =>
          cases j with
          | zero => simp
          | succ j => simp
      | succ i =>
          cases j with
          | zero => simp
          | succ j =>
              simp only [List.set_cons_succ, List.getD_cons_succ, ih,
                List.length_cons]
              exact if_congr (by omega) rfl rfl

theorem setBits_length :
    ∀ (ps : List Nat) (arr : List Nat), (setBits ps arr).length = arr.length
  | [], _ => rfl
  | p :: rest, arr => by
      show (setBits rest (arr.set p 1)).length = arr.length
      rw [setBits_length rest, List.length_set]

/-- Bits are only ever set, never cleared. -/
theorem setBits_mono :
    ∀ (ps : List Nat) (arr : List Nat) (q : Nat),
      arr.getD q 0 ≠ 0 → (setBits ps arr).getD q 0 ≠ 0
  | [], _, _, h => h
  | p :: rest, arr, q, h => by
      show (setBits rest (arr.set p 1)).getD q 0 ≠ 0
      apply setBits_mono
      rw [getD_set]
      by_cases hc : p = q ∧ p < arr.length
      · rw [if_pos hc]; simp
      · rw [if_neg hc]; exact h

/-- Every position in the list ends up set, provided it is in range. -/
theorem setBits_mem (p : Nat) :
    ∀ (ps : List Nat) (arr : List Nat), p ∈ ps → p < arr.length →
      (setBits ps arr).getD p 0 ≠ 0
  | [], _, hp, _ => absurd hp (List.not_mem_nil p)
  | q :: rest, arr, hp, hlt => by
      rcases List.mem_cons.mp hp with h1 | h1
      · subst h1
        show (setBits rest (arr.set p 1)).getD p 0 ≠ 0
        apply setBits_mono
        rw [getD_set, if_pos ⟨rfl, hlt⟩]
        simp
      · show (setBits rest (arr.set q 1)).getD p 0 ≠ 0
        exact setBits_mem p rest (arr.set q 1) h1 (by simp [List.length_set, hlt])

theorem bloomAdd_bit_array (shaNat : String → Nat) (bf : BloomFilter)
    (item : String) :
    (bf.add shaNat item).bit_array =
      setBits ((List.range bf.k).map (bloomHash shaNat bf.m_bits item))
        bf.bit_array := by
  simp [BloomFilter.add, setBits, List.foldl_map]

theorem bloomAdd_fields (shaNat : String → Nat) (bf : BloomFilter)
    (item : String) :
    (bf.add shaNat item).m_bits = bf.m_bits ∧ (bf.add shaNat item).k = bf.k ∧
      (bf.add shaNat item).bit_array.length = bf.bit_array.length := by
  refine ⟨rfl, rfl, ?_⟩
  rw [bloomAdd_bit_array, setBits_length]

theorem bloomAddAll_fields (shaNat : String → Nat) (items : List String) :
    ∀ bf : BloomFilter,
      (bloomAddAll shaNat bf items).m_bits = bf.m_bits ∧
      (bloomAddAll shaNat bf items).k = bf.k ∧
      (bloomAddAll shaNat bf items).bit_array.length = bf.bit_array.length := by
  induction items with
  | nil => exact fun bf => ⟨rfl, rfl, rfl⟩
  | cons y rest ih =>
      intro bf
      obtain ⟨h1, h2, h3⟩ := ih (bf.add shaNat y)
      obtain ⟨g1, g2, g3⟩ := bloomAdd_fields shaNat bf y
      exact ⟨h1.trans g1, h2.trans g2, h3.trans g3⟩

/-- `might_contain` survives any later `add`: bits are never cleared. -/
theorem bloomAddAll_mono (shaNat : String → Nat) (items : List String) :
    ∀ bf : BloomFilter, ∀ x : String,
      bf.mightContain shaNat x = true →
      (bloomAddAll shaNat bf items).mightContain shaNat x = true := by
  induction items with
  | nil => exact fun _ _ h => h
  | cons y rest ih =>
      intro bf x h
      apply ih
      unfold BloomFilter.mightContain at h ⊢
      obtain ⟨hm, hk, _⟩ := bloomAdd_fields shaNat bf y
      rw [hm, hk, bloomAdd_bit_array]
      rw [List.all_eq_true] at h ⊢
      intro i hi
      have := h i hi
      simp only [decide_eq_true_eq] at this ⊢
      exact setBits_mono _ _ _ this

/-- No false negatives: an added item is always reported as possibly present. -/
theorem bloomAddAll_mightContain (shaNat : String → Nat) (items : List String) :
    ∀ bf : BloomFilter, ∀ x : String, x ∈ items →
      bf.bit_array.length = bf.m_bits → 0 < bf.m_bits →
      (bloomAddAll shaNat bf items).mightContain shaNat x = true := by
  induction items with
  | nil => intro bf x hx; simp at hx
  | cons y rest ih =>
      intro bf x hx hlen hm
      rcases List.mem_cons.mp hx with h1 | h1
      · subst h1
        show (bloomAddAll shaNat (bf.add shaNat x) rest).mightContain shaNat x = true
        apply bloomAddAll_mono
        unfold BloomFilter.mightContain
        obtain ⟨hm2, hk2, _⟩ := bloomAdd_fields shaNat bf x
        rw [hm2, hk2, bloomAdd_bit_array]
        rw [List.all_eq_true]
        intro i hi
        simp only [decide_eq_true_eq]
        apply setBits_mem
        · exact List.mem_map_of_mem _ hi
        · rw [hlen]
          exact Nat.mod_lt _ hm
      · obtain ⟨g1, _, g3⟩ := bloomAdd_fields shaNat bf y
        exact ih (bf.add shaNat y) x h1 (g3.trans (hlen.trans g1.symm)) (g1 ▸ hm)

/-! ## Blocks and headers (`core/block.py`) -/

/-- `class BlockHeader`.  `block_reward` and `burned_fees` start at `0` and are
stamped by `apply_block` after a successful application. -/
structure BlockHeader where
  index : Nat
  prev_hash : String
  merkle_root : String
  timestamp : Int
  nonce : Nat
  miner_address : String
  block_reward : Int
  burned_fees : Int
deriving DecidableEq, Repr

/-- The canonical JSON of a header (`BlockHeader.to_dict` dumped with sorted
keys and no whitespace): block_reward, burned_fees, index, merkle_root,
miner_address, nonce, prev_hash, timestamp. -/
def canonicalHeaderJson (h : BlockHeader) : String :=
  "\x7b\"block_reward\":" ++ toString h.block_reward ++
  ",\"burned_fees\":" ++ toString h.burned_fees ++
  ",\"index\":" ++ toString h.index ++
  ",\"merkle_root\":\"" ++ h.merkle_root ++
  "\",\"miner_address\":\"" ++ h.miner_address ++
  "\",\"nonce\":" ++ toString h.nonce ++
  ",\"prev_hash\":\"" ++ h.prev_hash ++
  "\",\"timestamp\":" ++ toString h.timestamp ++ "\x7d"

/-- `BlockHeader.calculate_hash`: SHA-256 of the canonical header JSON. -/
def headerHash (sha : String → String) (h : BlockHeader) : String :=
  sha (canonicalHeaderJson h)

/-- `class Block`: a header plus an ordered transaction list. -/
structure Block where
  header : BlockHeader
  txs : List Tx
deriving DecidableEq, Repr

/-- `Block.block_hash`: the hash of the header only. -/
def blockHash (sha : String → String) (b : Block) : String :=
  headerHash sha b.header

/-- `Block.create_genesis_block` with no initial transactions: index 0, 64-zero
previous hash, Merkle root of the empty list, nonce 0.  The creation timestamp
(`time.time()` in the source) is passed in. -/
def createGenesisBlock (sha : String → String) (miner_address : String)
    (timestamp : Int) : Block :=
  { header :=
      { index := 0,
        prev_hash := String.mk (List.replicate 64 '0'),
        merkle_root := merkleRoot sha [],
        timestamp := timestamp,
        nonce := 0,
        miner_address := miner_address,
        block_reward := 0,
        burned_fees := 0 },
    txs := [] }

/-! ## The ledger state machine (`core/chain.py`) -/

/-- `class Blockchain`: the ledger state. -/
structure Blockchain where
  blocks : List Block
  balances : Balances
  total_burned : Int
  total_mined : Int
  difficulty : Nat
  enforce_block_tx_count : Option Nat
deriving DecidableEq, Repr

/-- `Blockchain.__init__(difficulty, enforce_block_tx_count)`. -/
def mkBlockchain (difficulty : Nat) (enforce : Option Nat) : Blockchain :=
  { blocks := [], balances := [], total_burned := 0, total_mined := 0,
    difficulty := difficulty, enforce_block_tx_count := enforce }

/-- `Blockchain.add_genesis`: refuses when a genesis block already exists,
otherwise installs the initial balances and appends the genesis block. -/
def addGenesis (sha : String → String) (c : Blockchain) (initial : Balances)
    (miner_address : String) (timestamp : Int) : Option Blockchain :=
  if c.blocks ≠ [] then none
  else some { c with
    balances := initial,
    blocks := c.blocks ++ [createGenesisBlock sha miner_address timestamp] }

/-- `Blockchain.validate_block_structure`: sequencing against the last block
(when the chain is non-empty), the hard cap of 4 transactions, and the
optional exact-count rule (`len(block.txs) not in (0, required)` fails it, for
non-genesis headers only).  The `hasattr` checks of the source are vacuous in
a typed model. -/
def validateBlockStructure (sha : String → String) (c : Blockchain)
    (b : Block) : Bool :=
  (match c.blocks.getLast? with
   | some prev =>
       decide (b.header.index = prev.header.index + 1) &&
       decide (b.header.prev_hash = blockHash sha prev)
   | none => true) &&
  decide (b.txs.length ≤ 4) &&
  (match c.enforce_block_tx_count with
   | some required =>
       !(decide (0 < b.header.index) && decide (b.txs.length ≠ 0) &&
         decide (b.txs.length ≠ required))
   | none => true)

/-- The transaction loop of `apply_block`, on the private working copy of the
balances: per transaction, verify the signature, check the sender can afford
`amount + base_fee + tip`, then move the amount, pay the tip to the miner and
accumulate the burned base fee.  `sigOk tx` stands for the verdict of
`tx.verify_signature()` under the ambient signing capability and signature
store (see `Tx.verifySignature`). -/
def processTxs (sigOk : Tx → Bool) (miner_addr : String) :
    List Tx → Balances → Int → Option (Balances × Int)
  | [], bal, burned => some (bal, burned)
  | tx :: rest, bal, burned =>
      if !sigOk tx then none
      else
        let sender_balance := getBal bal tx.sender
        let total_cost := tx.amount + tx.base_fee + tx.tip
        if sender_balance < total_cost then none
        else
          let b1 := setBal bal tx.sender (sender_balance - total_cost)
          let b2 := setBal b1 tx.recipient (getBal b1 tx.recipient + tx.amount)
          let b3 := setBal b2 miner_addr (getBal b2 miner_addr + tx.tip)
          processTxs sigOk miner_addr rest b3 (burned + tx.base_fee)

/-- `Blockchain.apply_block`: validate the structure, run the transaction loop
on a working copy, and only on success commit the new balances (plus the fixed
block reward of 50 to the miner), bump the burned/mined totals, stamp the
header's accounting fields and append the block.  Returns the Python boolean
together with the resulting ledger state (unchanged on failure). -/
def applyBlock (sha : String → String) (sigOk : Tx → Bool) (c : Blockchain)
    (b : Block) (miner_addr : String) : Bool × Blockchain :=
  if !validateBlockStructure sha c b then (false, c)
  else
    match processTxs sigOk miner_addr b.txs c.balances 0 with
    | none => (false, c)
    | some (bal, block_burned) =>
        let final := setBal bal miner_addr (getBal bal miner_addr + 50)
        let stamped : Block :=
          { b with header :=
              { b.header with block_reward := 50, burned_fees := block_burned } }
        (true,
         { c with
           balances := final,
           total_burned := c.total_burned + block_burned,
           total_mined := c.total_mined + 50,
           blocks := c.blocks ++ [stamped] })

/-- `Blockchain.add_block`: validate the structure, then apply (which
validates again). -/
def addBlock (sha : String → String) (sigOk : Tx → Bool) (c : Blockchain)
    (b : Block) (miner_addr : String) : Bool × Blockchain :=
  if !validateBlockStructure sha c b then (false, c)
  else applyBlock sha sigOk c b miner_addr

/-- `Blockchain.get_block_by_index`: the block at a valid index, else `None`. -/
def getBlockByIndex (c : Blockchain) (index : Nat) : Option Block :=
  if index < c.blocks.length then c.blocks.get? index else none

/-- `Blockchain.get_balance`. -/
def getBalance (c : Blockchain) (address : String) : Int :=
  getBal c.balances address

/-! ### Ledger lemmas -/

/-- Per-transaction bookkeeping: each successful step moves `base_fee` from the
balance total to the burned accumulator and nothing else, so the sum of the
balance total and the accumulator is invariant across the loop. -/
theorem processTxs_sum (sigOk : Tx → Bool) (m : String) :
    ∀ (txs : List Tx) (bal : Balances) (burned : Int) (bal2 : Balances)
      (burned2 : Int),
      processTxs sigOk m txs bal burned = some (bal2, burned2) →
      sumBal bal2 + burned2 = sumBal bal + burned
  | [], bal, burned, bal2, burned2, h => by
      simp [processTxs] at h
      rw [h.1, h.2]
  | tx :: rest, bal, burned, bal2, burned2, h => by
      simp only [processTxs] at h
      by_cases hs : sigOk tx
      · simp only [hs, Bool.not_true, Bool.false_eq_true, if_false] at h
        by_cases hlt : getBal bal tx.sender < tx.amount + tx.base_fee + tx.tip
        · simp [hlt] at h
        · simp only [hlt, if_false] at h
          have ih := processTxs_sum sigOk m rest _ _ _ _ h
          rw [ih]
          simp only [sumBal_setBal]
          ring
      · simp [hs] at h

/-- A failed application returns the ledger unchanged: the working copy is
discarded before any commit. -/
theorem applyBlock_fail_frame (sha : String → String) (sigOk : Tx → Bool)
    (c : Blockchain) (b : Block) (m : String)
    (h : (applyBlock sha sigOk c b m).1 = false) :
    (applyBlock sha sigOk c b m).2 = c := by
  unfold applyBlock at h ⊢
  by_cases hv : validateBlockStructure sha c b
  · simp only [hv, Bool.not_true, Bool.false_eq_true, if_false] at h ⊢
    cases hp : processTxs sigOk m b.txs c.balances 0 with
    | none => simp [hp]
    | some p => simp [hp] at h
  · simp [hv]

/-- A successful application preserves
`sum(balances) - total_mined + total_burned`: the tip and amount moves cancel,
the burned base fees leave the balance total for `total_burned`, and the fixed
reward of 50 enters both the balance total and `total_mined`. -/
theorem applyBlock_conserves (sha : String → String) (sigOk : Tx → Bool)
    (c : Blockchain) (b : Block) (m : String) (c2 : Blockchain)
    (h : applyBlock sha sigOk c b m = (true, c2)) :
    sumBal c2.balances - c2.total_mined + c2.total_burned =
      sumBal c.balances - c.total_mined + c.total_burned := by
  unfold applyBlock at h
  by_cases hv : validateBlockStructure sha c b
  · simp only [hv, Bool.not_true, Bool.false_eq_true, if_false] at h
    cases hp : processTxs sigOk m b.txs c.balances 0 with
    | none => simp [hp] at h
    | some p =>
        obtain ⟨bal, burned⟩ := p
        rw [hp] at h
        simp only [Prod.mk.injEq, true_and] at h
        subst h
        have hsum := processTxs_sum sigOk m b.txs c.balances 0 bal burned hp
        simp only [sumBal_setBal]
        omega
  · simp [hv] at h

/-- `add_block` and a direct `apply_block` agree on every input: the extra
structure validation in `add_block` is re-run, unchanged, inside
`apply_block`. -/
theorem addBlock_eq_applyBlock (sha : String → String) (sigOk : Tx → Bool)
    (c : Blockchain) (b : Block) (m : String) :
    addBlock sha sigOk c b m = applyBlock sha sigOk c b m := by
  unfold addBlock applyBlock
  by_cases hv : validateBlockStructure sha c b <;> simp [hv]

/-- The ledgers reachable from a fresh chain by `add_genesis` with initial
balances `B0` followed by any sequence of successful `add_block` calls. -/
inductive Reached (sha : String → String) (sigOk : Tx → Bool) (B0 : Balances) :
    Blockchain → Prop
  | genesis (difficulty : Nat) (enforce : Option Nat) (miner_address : String)
      (timestamp : Int) (c : Blockchain) :
      addGenesis sha (mkBlockchain difficulty enforce) B0 miner_address timestamp =
        some c →
      Reached sha sigOk B0 c
  | step (c : Blockchain) (b : Block) (m : String) (c2 : Blockchain) :
      Reached sha sigOk B0 c → addBlock sha sigOk c b m = (true, c2) →
      Reached sha sigOk B0 c2

/-- Conservation along every reachable ledger. -/
theorem reached_conservation (sha : String → String) (sigOk : Tx → Bool)
    (B0 : Balances) (c : Blockchain) (h : Reached sha sigOk B0 c) :
    sumBal c.balances = sumBal B0 + c.total_mined - c.total_burned := by
  induction h with
  | genesis d e m ts c0 hg =>
      simp only [addGenesis, mkBlockchain] at hg
      simp at hg
      rw [← hg]
      simp
  | step c0 b m c2 _hr hb ih =>
      rw [addBlock_eq_applyBlock] at hb
      have := applyBlock_conserves sha sigOk c0 b m c2 hb
      omega

/-! ## Full node and light-client verification (`node/full_node.py`,
`node/light_wallet.py`) -/

/-- `class FullNode`, restricted to the state the verification path reads: the
blockchain and the per-block Bloom filters (`Dict[int, BloomFilter]`).  The
mempool and the peer list are never consulted by the operations below. -/
structure FullNode where
  blockchain : Blockchain
  block_blooms : List (Nat × BloomFilter)

/-- First-match lookup in the `block_blooms` dictionary. -/
def lookupBloom : List (Nat × BloomFilter) → Nat → Option BloomFilter
  | [], _ => none
  | (i, bf) :: rest, j => if i = j then some bf else lookupBloom rest j

/-- `FullNode.build_bloom_filter`: a fresh 2048-bit, 3-derivation filter over
all transaction ids of a block. -/
def buildBloomFilter (shaNat : String → Nat) (block : Block) : BloomFilter :=
  bloomAddAll shaNat (BloomFilter.init 2048 3) (block.txs.map Tx.tx_id)

/-- `FullNode.might_contain_tx`: use the stored Bloom filter for the block if
any; otherwise build one from the block when it exists (the source also caches
it, a mutation that does not affect the returned value), and answer `False`
for a missing block instead of raising. -/
def mightContainTx (shaNat : String → Nat) (node : FullNode)
    (block_index : Nat) (tx_id : String) : Bool :=
  match lookupBloom node.block_blooms block_index with
  | some bloom => bloom.mightContain shaNat tx_id
  | none =>
      match getBlockByIndex node.blockchain block_index with
      | some block => (buildBloomFilter shaNat block).mightContain shaNat tx_id
      | none => false

/-- `FullNode.get_merkle_proof`: `None` for a missing block or an empty proof
(transaction absent), the proof otherwise. -/
def getMerkleProof (sha : String → String) (node : FullNode)
    (block_index : Nat) (tx_id : String) : Option (List (String × String)) :=
  match getBlockByIndex node.blockchain block_index with
  | none => none
  | some block =>
      let proof := merkleProof sha block.txs tx_id
      if proof = [] then none else some proof

/-- `LightWallet.check_tx_in_block` for a wallet connected to `node` (the
unconnected `ValueError` path is outside this model): raise for a missing
block, otherwise Bloom phase then Merkle phase. -/
def checkTxInBlock (sha : String → String) (shaNat : String → Nat)
    (node : FullNode) (block_index : Nat) (tx_id : String) :
    Except String Bool :=
  match getBlockByIndex node.blockchain block_index with
  | none =>
      Except.error ("Block with index " ++ toString block_index ++ " does not exist")
  | some block =>
      if !mightContainTx shaNat node block_index tx_id then Except.ok false
      else
        match getMerkleProof sha node block_index tx_id with
        | none => Except.ok false
        | some proof =>
            Except.ok (verifyProof sha block.header.merkle_root tx_id proof)

/-! ## Concrete instantiations

The abstract digest functions are instantiated with small executable stand-ins
so that the theorems above can be exercised on closed inputs.  `shaW` is
injective (it prefixes its argument), which is all the witnesses rely on. -/

/-- A concrete stand-in for the hex digest when evaluating on closed inputs. -/
def shaW : String → String := fun s => "#" ++ s

/-- A concrete stand-in for the digest-as-integer of the Bloom filter. -/
def shaNatW : String → Nat := fun s => s.length * 37 + 11

/-- A signature-verification verdict that accepts every transaction. -/
def sigOkW : Tx → Bool := fun _ => true

/-- A signature-verification verdict that rejects every transaction. -/
def sigNoW : Tx → Bool := fun _ => false

/-- A concrete signing capability over a unit private-key type. -/
def capW : SigCapability Unit :=
  { serializePub := fun _ => "pubkey",
    signData := fun _ preimage => "sig:" ++ preimage,
    verifyData := fun _ _ _ => true }

/-- The empty detached-signature store. -/
def storeEmptyW : SigStore := fun _ => none

/-- Scenario A genesis balances. -/
def balancesA : Balances :=
  [("alice", 1000), ("bob", 500), ("charlie", 200), ("miner", 0)]

/-- The ledger right after `add_genesis(balancesA)` (genesis timestamp 0). -/
def chainA : Blockchain :=
  { blocks := [createGenesisBlock shaW "genesis" 0],
    balances := balancesA,
    total_burned := 0, total_mined := 0, difficulty := 4,
    enforce_block_tx_count := none }

/-- Scenario A transaction: alice pays bob 50 with base fee 2 and tip 3. -/
def txA : Tx := mkTx shaW "alice" "bob" 50 1 2 3 none none none

/-- A second transaction, for multi-leaf Merkle inputs. -/
def txB : Tx := mkTx shaW "bob" "charlie" 25 1 2 3 none none none

/-- Scenario A block: height 1 over the genesis block, carrying `txA`. -/
def blockA : Block :=
  { header :=
      { index := 1,
        prev_hash := blockHash shaW (createGenesisBlock shaW "genesis" 0),
        merkle_root := merkleRoot shaW [txA],
        timestamp := 1, nonce := 0, miner_address := "miner",
        block_reward := 0, burned_fees := 0 },
    txs := [txA] }

/-- A block of five transactions, for the transaction-count cap. -/
def blockFive : Block :=
  { header :=
      { index := 1,
        prev_hash := blockHash shaW (createGenesisBlock shaW "genesis" 0),
        merkle_root := merkleRoot shaW [txA],
        timestamp := 1, nonce := 0, miner_address := "miner",
        block_reward := 0, burned_fees := 0 },
    txs := [mkTx shaW "alice" "bob" 1 1 2 3 none none none,
            mkTx shaW "alice" "bob" 1 2 2 3 none none none,
            mkTx shaW "alice" "bob" 1 3 2 3 none none none,
            mkTx shaW "alice" "bob" 1 4 2 3 none none none,
            mkTx shaW "alice" "bob" 1 5 2 3 none none none] }

/-- A ledger with the strict transaction-count flag set to 4. -/
def chainS : Blockchain :=
  { blocks := [createGenesisBlock shaW "genesis" 0],
    balances := balancesA,
    total_burned := 0, total_mined := 0, difficulty := 4,
    enforce_block_tx_count := some 4 }

/-- A correctly sequenced height-1 block with no transactions. -/
def blockEmpty : Block :=
  { header :=
      { index := 1,
        prev_hash := blockHash shaW (createGenesisBlock shaW "genesis" 0),
        merkle_root := merkleRoot shaW [],
        timestamp := 2, nonce := 0, miner_address := "miner",
        block_reward := 0, burned_fees := 0 },
    txs := [] }

/-- A full node holding the Scenario A genesis ledger and no cached filters. -/
def nodeW : FullNode := { blockchain := chainA, block_blooms := [] }

set_option maxRecDepth 100000

/-! ## The claims -/

/-- C1: Conservation invariant — starting from a ledger initialized by
`add_genesis` with initial balances `B0` (`total_mined = total_burned = 0`),
after every sequence of successful `add_block` calls the sum of all account
balances equals the sum of `B0` plus `total_mined` minus `total_burned`. -/
theorem C1_conservation (sha : String → String) (sigOk : Tx → Bool)
    (B0 : Balances) (c : Blockchain) (h : Reached sha sigOk B0 c) :
    sumBal c.balances = sumBal B0 + c.total_mined - c.total_burned :=
  reached_conservation sha sigOk B0 c h

/-- Witness for C1: the Scenario A genesis followed by one applied block. -/
theorem C1_conservation_witness :
    sumBal ((addBlock shaW sigOkW chainA blockA "miner").2).balances =
      sumBal balancesA +
        ((addBlock shaW sigOkW chainA blockA "miner").2).total_mined -
        ((addBlock shaW sigOkW chainA blockA "miner").2).total_burned :=
  C1_conservation shaW sigOkW balancesA _
    (Reached.step chainA blockA "miner" _
      (Reached.genesis 4 none "genesis" 0 chainA (by decide))
      (Prod.ext (by decide) rfl))

/-- C2: Atomicity of application — whenever `apply_block(block, producer)`
returns false, the balance map, the block list, `total_mined` and
`total_burned` are all identical to their pre-call values. -/
theorem C2_atomicity (sha : String → String) (sigOk : Tx → Bool)
    (c : Blockchain) (b : Block) (m : String)
    (h : (applyBlock sha sigOk c b m).1 = false) :
    ((applyBlock sha sigOk c b m).2).balances = c.balances ∧
    ((applyBlock sha sigOk c b m).2).blocks = c.blocks ∧
    ((applyBlock sha sigOk c b m).2).total_mined = c.total_mined ∧
    ((applyBlock sha sigOk c b m).2).total_burned = c.total_burned := by
  rw [applyBlock_fail_frame sha sigOk c b m h]
  exact ⟨rfl, rfl, rfl, rfl⟩

/-- Witness for C2: applying Scenario A's block under a rejecting signature
verdict fails and leaves the ledger untouched. -/
theorem C2_atomicity_witness :
    (applyBlock shaW sigNoW chainA blockA "miner").1 = false ∧
    (((applyBlock shaW sigNoW chainA blockA "miner").2).balances = chainA.balances ∧
     ((applyBlock shaW sigNoW chainA blockA "miner").2).blocks = chainA.blocks ∧
     ((applyBlock shaW sigNoW chainA blockA "miner").2).total_mined = chainA.total_mined ∧
     ((applyBlock shaW sigNoW chainA blockA "miner").2).total_burned = chainA.total_burned) :=
  ⟨by decide, C2_atomicity shaW sigNoW chainA blockA "miner" (by decide)⟩

/-- C7: Transaction-count cap — a block with more than 4 transactions fails
`validate_block_structure`, and `add_block` returns false with the ledger (in
particular the chain length) unchanged. -/
theorem C7_tx_count_cap (sha : String → String) (sigOk : Tx → Bool)
    (c : Blockchain) (b : Block) (m : String) (h : 4 < b.txs.length) :
    validateBlockStructure sha c b = false ∧
    addBlock sha sigOk c b m = (false, c) := by
  have hv : validateBlockStructure sha c b = false := by
    unfold validateBlockStructure
    have hn : ¬ (b.txs.length ≤ 4) := by omega
    simp [hn]
  refine ⟨hv, ?_⟩
  unfold addBlock
  simp [hv]

/-- Witness for C7: a five-transaction block is rejected (Scenario B). -/
theorem C7_tx_count_cap_witness :
    validateBlockStructure shaW chainA blockFive = false ∧
    addBlock shaW sigOkW chainA blockFive "miner" = (false, chainA) :=
  C7_tx_count_cap shaW sigOkW chainA blockFive "miner" (by decide)

/-- C10: `add_block` returns the same boolean and the same ledger state as a
direct `apply_block` — the extra structure validation is a pure read. -/
theorem C10_addBlock_refines (sha : String → String) (sigOk : Tx → Bool)
    (c : Blockchain) (b : Block) (m : String) :
    addBlock sha sigOk c b m = applyBlock sha sigOk c b m :=
  addBlock_eq_applyBlock sha sigOk c b m

/-- C4, counterexample: on Scenario A's input the application succeeds, but
bob ends at 550 (not the claimed 553) and the miner at 53 (not the claimed
56) — the code credits the tip to the producer once, so the claimed values,
which also break conservation (945+553+200+56 ≠ 1700+50−2), are unreachable. -/
theorem C4_scenario_A_counterexample :
    (applyBlock shaW sigOkW chainA blockA "miner").1 = true ∧
    getBal ((applyBlock shaW sigOkW chainA blockA "miner").2).balances "bob" ≠ 553 ∧
    getBal ((applyBlock shaW sigOkW chainA blockA "miner").2).balances "miner" ≠ 56 := by
  refine ⟨by decide, by decide, by decide⟩

/-- C4, amended: from genesis balances
alice 1000, bob 500, charlie 200, miner 0, applying a block with the single
transaction alice→bob (amount 50, base fee 2, tip 3) under producer "miner"
succeeds and yields alice 945, bob 550, miner 53 (3 tip + 50 reward),
charlie 200, with total_burned 2 and total_mined 50. -/
theorem C4_scenario_A :
    (applyBlock shaW sigOkW chainA blockA "miner").1 = true ∧
    getBal ((applyBlock shaW sigOkW chainA blockA "miner").2).balances "alice" = 945 ∧
    getBal ((applyBlock shaW sigOkW chainA blockA "miner").2).balances "bob" = 550 ∧
    getBal ((applyBlock shaW sigOkW chainA blockA "miner").2).balances "miner" = 53 ∧
    getBal ((applyBlock shaW sigOkW chainA blockA "miner").2).balances "charlie" = 200 ∧
    ((applyBlock shaW sigOkW chainA blockA "miner").2).total_burned = 2 ∧
    ((applyBlock shaW sigOkW chainA blockA "miner").2).total_mined = 50 := by
  refine ⟨by decide, by decide, by decide, by decide, by decide, by decide, by decide⟩

/-- C8, counterexample: with the cap-enforcing flag set to 4, a non-genesis
block carrying zero transactions still passes `validate_block_structure`
(`len(block.txs) not in (0, required)` admits the empty count), so the strict
mode does not require exactly the cap count. -/
theorem C8_strict_mode_counterexample :
    chainS.enforce_block_tx_count = some 4 ∧
    blockEmpty.header.index ≠ 0 ∧
    blockEmpty.txs.length ≠ 4 ∧
    validateBlockStructure shaW chainS blockEmpty = true := by
  refine ⟨rfl, by decide, by decide, by decide⟩

/-- C8, amended: when the cap-enforcing flag is `some N`,
`validate_block_structure` accepts a block only if the block is genesis
(header index 0), or its transaction count is zero, or its transaction count
is exactly `N`. -/
theorem C8_strict_mode (sha : String → String) (c : Blockchain) (b : Block)
    (N : Nat) (hN : c.enforce_block_tx_count = some N)
    (hv : validateBlockStructure sha c b = true) :
    b.header.index = 0 ∨ b.txs.length = 0 ∨ b.txs.length = N := by
  unfold validateBlockStructure at hv
  rw [hN] at hv
  simp only [Bool.and_eq_true, Bool.not_eq_true', Bool.and_eq_false_iff,
    decide_eq_false_iff_not, not_not] at hv
  rcases hv.2 with h | h
  · rcases h with h | h
    · left; omega
    · right; left; exact h
  · right; right; exact h

/-- Witness for the amended C8: the empty height-1 block under flag 4. -/
theorem C8_strict_mode_witness :
    blockEmpty.header.index = 0 ∨ blockEmpty.txs.length = 0 ∨
      blockEmpty.txs.length = 4 :=
  C8_strict_mode shaW chainS blockEmpty 4 rfl (by decide)

/-- C3: Merkle round-trip — for every non-empty transaction sequence, the
proof generated for any element verifies against the root (odd levels and the
single-element empty-proof case included); and for a target id whose leaf hash
is not among the leaves (the claim's "excluding hash coincidence": no leaf
collision and no root coincidence), the proof comes back empty and verifying
that empty proof against the root fails. -/
theorem C3_merkle_round_trip (sha : String → String) (txs : List Tx)
    (_hne : txs ≠ []) :
    (∀ e ∈ txs,
        verifyProof sha (merkleRoot sha txs) e.tx_id (merkleProof sha txs e.tx_id) =
          true) ∧
    (∀ t : String, sha t ∉ txs.map (fun tx => sha tx.tx_id) →
        sha t ≠ merkleRoot sha txs →
        merkleProof sha txs t = [] ∧
        verifyProof sha (merkleRoot sha txs) t [] = false) := by
  refine ⟨fun e he => merkleProof_verifies sha txs e he, fun t h1 h2 => ?_⟩
  exact ⟨merkleProof_absent sha txs t h1, verifyProof_nil sha _ t h2⟩

/-- Witness for C3: a two-transaction list, its first element, and the foreign
id "zzz". -/
theorem C3_merkle_round_trip_witness :
    verifyProof shaW (merkleRoot shaW [txA, txB]) txA.tx_id
      (merkleProof shaW [txA, txB] txA.tx_id) = true ∧
    (merkleProof shaW [txA, txB] "zzz" = [] ∧
     verifyProof shaW (merkleRoot shaW [txA, txB]) "zzz" [] = false) :=
  ⟨(C3_merkle_round_trip shaW [txA, txB] (by decide)).1 txA (by decide),
   (C3_merkle_round_trip shaW [txA, txB] (by decide)).2 "zzz" (by decide)
     (by simp only [merkleRoot, buildMerkleTree, pairUp, List.map]; decide)⟩

/-- C5: Bloom soundness — every item added to a Bloom filter is subsequently
reported by `might_contain`, and in particular every transaction of a block
whose filter was built by `build_bloom_filter` is reported by its id. -/
theorem C5_bloom_soundness (shaNat : String → Nat) :
    (∀ (items : List String) (m k : Nat) (x : String), x ∈ items → 0 < m →
        (bloomAddAll shaNat (BloomFilter.init m k) items).mightContain shaNat x =
          true) ∧
    (∀ (block : Block), ∀ tx ∈ block.txs,
        (buildBloomFilter shaNat block).mightContain shaNat tx.tx_id = true) := by
  constructor
  · intro items m k x hx hm
    exact bloomAddAll_mightContain shaNat items (BloomFilter.init m k) x hx
      (by simp [BloomFilter.init]) hm
  · intro block tx htx
    exact bloomAddAll_mightContain shaNat _ (BloomFilter.init 2048 3) tx.tx_id
      (List.mem_map_of_mem _ htx) (by simp [BloomFilter.init]) (by decide)

/-- Witness for C5: a two-item filter and Scenario A's one-transaction block. -/
theorem C5_bloom_soundness_witness :
    (bloomAddAll shaNatW (BloomFilter.init 8 3) ["aa", "bb"]).mightContain
      shaNatW "aa" = true ∧
    (buildBloomFilter shaNatW blockA).mightContain shaNatW txA.tx_id = true :=
  ⟨(C5_bloom_soundness shaNatW).1 ["aa", "bb"] 8 3 "aa" (by decide) (by decide),
   (C5_bloom_soundness shaNatW).2 blockA txA (by decide)⟩

/-- C6: Identity stability — the constructor computes `tx_id` as the hash of
the canonical serialization of the six identity fields only, and neither
`sign` (attached or detached) nor a `to_dict`/`from_dict` round trip changes
`tx_id`. -/
theorem C6_identity_stability {PrivKey : Type} (cap : SigCapability PrivKey)
    (sha : String → String) (tx : Tx)
    (h : tx.tx_id =
      calculateTxId sha tx.sender tx.recipient tx.amount tx.nonce tx.base_fee tx.tip) :
    (∀ (s r : String) (a n bf tp : Int) (spk sg : Option String),
        (mkTx sha s r a n bf tp spk sg none).tx_id =
          sha (canonicalTxJson s r a n bf tp)) ∧
    (∀ (pk : PrivKey) (detach : Bool) (store : SigStore),
        ((Tx.sign cap tx pk detach store).1).tx_id = tx.tx_id) ∧
    (∀ (isig ipk : Bool),
        (Tx.fromDict sha (tx.toDict isig ipk)).tx_id = tx.tx_id) := by
  refine ⟨fun s r a n bf tp spk sg => rfl, fun pk detach store => ?_, fun isig ipk => ?_⟩
  · cases detach <;> rfl
  · simp only [Tx.toDict, Tx.fromDict, mkTx, Option.getD]
    exact h.symm

/-- Witness for C6: Scenario A's transaction, detached signing under the
concrete capability, and a full round trip. -/
theorem C6_identity_stability_witness :
    ((Tx.sign capW txA () true storeEmptyW).1).tx_id = txA.tx_id ∧
    (Tx.fromDict shaW (txA.toDict true true)).tx_id = txA.tx_id :=
  ⟨(C6_identity_stability capW shaW txA (by decide)).2.1 () true storeEmptyW,
   (C6_identity_stability capW shaW txA (by decide)).2.2 true true⟩

/-- C9: Block-not-found is a distinguishable hard error — for an index with no
block, `check_tx_in_block` raises (an `Except.error`), never a silent false;
for an existing block and a target id whose leaf hash does not occur among the
block's leaves, it returns the value false (Bloom phase or absent proof),
never an exception. -/
theorem C9_block_lookup (sha : String → String) (shaNat : String → Nat)
    (node : FullNode) (i : Nat) (t : String) :
    (node.blockchain.blocks.length ≤ i →
      ∃ msg, checkTxInBlock sha shaNat node i t = Except.error msg) ∧
    (∀ block, getBlockByIndex node.blockchain i = some block →
      sha t ∉ block.txs.map (fun tx => sha tx.tx_id) →
      checkTxInBlock sha shaNat node i t = Except.ok false) := by
  constructor
  · intro hle
    have hnone : getBlockByIndex node.blockchain i = none := by
      unfold getBlockByIndex
      rw [if_neg (by omega)]
    refine ⟨"Block with index " ++ toString i ++ " does not exist", ?_⟩
    unfold checkTxInBlock
    rw [hnone]
  · intro block hb habs
    unfold checkTxInBlock
    rw [hb]
    cases hm : mightContainTx shaNat node i t with
    | false => simp [hm]
    | true =>
        simp only [hm, Bool.not_true, Bool.false_eq_true, if_false]
        have hproof : getMerkleProof sha node i t = none := by
          unfold getMerkleProof
          rw [hb]
          simp [merkleProof_absent sha block.txs t habs]
        rw [hproof]

/-- Witness for C9: index 5 is beyond the one-block chain and errors; the
genesis block at index 0 exists and a foreign id comes back `ok false`. -/
theorem C9_block_lookup_witness :
    (∃ msg, checkTxInBlock shaW shaNatW nodeW 5 "zzz" = Except.error msg) ∧
    checkTxInBlock shaW shaNatW nodeW 0 "zzz" = Except.ok false :=
  ⟨(C9_block_lookup shaW shaNatW nodeW 5 "zzz").1 (by decide),
   (C9_block_lookup shaW shaNatW nodeW 0 "zzz").2
     (createGenesisBlock shaW "genesis" 0) (by decide) (by decide)⟩

end BlockchainHIT

